import Mathlib

/-!
# Verification of the Velox Parquet `Writer` batching / flushing / schema-reconciliation layer

Shallow embedding of `velox/dwio/parquet/writer/Writer.cpp`:

* `VType` models the Velox logical type tree (`Type`: scalar / row / array / map).
* `ArrowType` / `ArrowField` model the interchange (Arrow) schema representation.
* `updateFieldNameRecursive` / `updateFields` embed the schema reconciliation
  routine of the same name.
* `validateNames` / `validateSchemaRecursive` embed the construction-time schema
  validation.
* `BufferedSink` embeds `ArrowDataBufferSink` (buffer size, running flushed-byte
  counter, the destination `FileSink` chunk list, and the alive/closed flags).
* `WriterState` embeds the `Writer`'s fields (`schema_`, `stream_`,
  `arrowContext_`) together with the observable encoder effects: the list of
  materialized row-group tables handed to the encoder, the number of encoder
  opens, and the number of encoder closes (footer writes).
* `Writer.write` / `Writer.flush` / `Writer.close` / `Writer.abort` embed the
  corresponding member functions.  Fallible operations return `Except Err`;
  dereferencing a reset (`null`) handle is modelled as the raised error
  `Err.nullDeref`, and a `std::vector::at` out-of-range access as
  `Err.outOfRange`.

Byte contents are abstracted to byte counts, and the encoder's byte production
into the buffered sink is out of scope (the spec treats the byte-level encoding
as an external collaborator); the events that the code performs on the sink
(buffer writes, flushes, close, abort) are modelled exactly.
-/

/-- Velox logical type tree (`Type`): a scalar leaf (the scalar kind is
abstracted to a numeric code), a row (struct) with field names and children,
an array with an element type, or a map with key and value types. -/
inductive VType : Type where
  | scalar (kind : Nat)
  | row (names : List String) (children : List VType)
  | array (elem : VType)
  | map (key value : VType)
deriving Repr

mutual
/-- Arrow data type: primitive, struct (with fields), list (with a value
field), or map (with key and item fields). -/
inductive ArrowType : Type where
  | prim (kind : Nat)
  | struct_ (fields : List ArrowField)
  | list (value : ArrowField)
  | map (key : ArrowField) (item : ArrowField)
deriving Repr

/-- Arrow field: a name paired with a data type. -/
inductive ArrowField : Type where
  | mk (name : String) (typ : ArrowType)
deriving Repr
end

/-- The name of an Arrow field. -/
def ArrowField.name : ArrowField → String
  | .mk n _ => n

/-- The data type of an Arrow field. -/
def ArrowField.typ : ArrowField → ArrowType
  | .mk _ t => t

mutual
/-- Embedding of `updateFieldNameRecursive` (Writer.cpp:196-237): rewrite the
converted Arrow field's name (and, recursively, its nested fields' names) from
the authoritative logical type.  The `name` parameter defaults to `""` at the
call sites that the C++ default argument covers.  A shape mismatch between the
Arrow type and the logical type (where the C++ `dynamic_pointer_cast` would
return null and the subsequent dereference would crash) is modelled as `none`.

Note the map case: the C++ rebuilds the map type with
`::arrow::map(newKeyField->type(), newValueField->type())`, which takes only
the two *types* and installs the interchange library's default field names
(`"key"` and `"value"`); the reconciled key/value fields' names are discarded.
The list case, by contrast, passes the reconciled element field itself to
`::arrow::list(...)`. -/
def updateFieldNameRecursive (field : ArrowField) (t : VType) (name : String) :
    Option ArrowField :=
  match t with
  | .row ns cs =>
    match field.typ with
    | .struct_ afs =>
      match updateFields afs ns cs with
      | some nfs => some ⟨name, .struct_ nfs⟩
      | none => none
    | _ => none
  | .array elemT =>
    match field.typ with
    | .list ef =>
      match updateFieldNameRecursive ef elemT "" with
      | some nef => some ⟨name, .list nef⟩
      | none => none
    | _ => none
  | .map kt vt =>
    match field.typ with
    | .map kf vf =>
      match updateFieldNameRecursive kf kt "", updateFieldNameRecursive vf vt "" with
      | some nkf, some nvf => some ⟨name, .map ⟨"key", nkf.typ⟩ ⟨"value", nvf.typ⟩⟩
      | _, _ => none
    | _ => none
  | .scalar _ => if name ≠ "" then some ⟨name, field.typ⟩ else some field
termination_by sizeOf t

/-- The loop in the struct case of `updateFieldNameRecursive`, and the loop in
`Writer::write` (Writer.cpp:447-450) that reconciles the top-level fields: pair
each logical child (name and type) with the Arrow field at the same position.
The loop runs over the logical children; extra Arrow fields are dropped, and a
missing Arrow field (an out-of-bounds access in the C++) is `none`. -/
def updateFields (afs : List ArrowField) (ns : List String) (cs : List VType) :
    Option (List ArrowField) :=
  match afs, ns, cs with
  | _, [], [] => some []
  | af :: afs', n :: ns', c :: cs' =>
    match updateFieldNameRecursive af c n, updateFields afs' ns' cs' with
    | some nf, some rest => some (nf :: rest)
    | _, _ => none
  | _, _, _ => none
termination_by sizeOf cs
end

mutual
/-- Modelled from the spec: `Type::equivalent` (the Velox `Type` comparison
used by `Writer::write` at Writer.cpp:426-428) is declared outside this
excerpt.  The spec states that the batch's "logical type must equal the
writer's configured schema exactly (field order, names, and nested types)",
so this definition is exact recursive equality of the type trees, field
names included. -/
def VType.equivalent (a b : VType) : Bool :=
  match a, b with
  | .scalar k1, .scalar k2 => k1 == k2
  | .row ns1 cs1, .row ns2 cs2 => ns1 == ns2 && VType.equivalentList cs1 cs2
  | .array e1, .array e2 => VType.equivalent e1 e2
  | .map k1 v1, .map k2 v2 => VType.equivalent k1 k2 && VType.equivalent v1 v2
  | _, _ => false
termination_by sizeOf a

/-- Pairwise `VType.equivalent` on children lists. -/
def VType.equivalentList (as bs : List VType) : Bool :=
  match as, bs with
  | [], [] => true
  | a :: as', b :: bs' => VType.equivalent a b && VType.equivalentList as' bs'
  | _, _ => false
termination_by sizeOf as
end

/-- The name loop of `validateSchemaRecursive` (Writer.cpp:178-186): walk the
field names keeping the set of names already seen; fail on an empty name or on
a name already in the set. -/
def validateNames : List String → List String → Bool
  | [], _ => true
  | n :: ns, seen =>
    if n = "" then false
    else if seen.contains n then false
    else validateNames ns (n :: seen)

mutual
/-- Embedding of `validateSchemaRecursive` (Writer.cpp:173-194): check the
names at this level, then recurse into exactly those children that are
themselves row types (`dynamic_pointer_cast<const RowType>` succeeds); children
of any other type — including arrays and maps whose element/key/value types may
contain nested rows — are skipped. -/
def validateSchemaRecursive : VType → Bool
  | .row ns cs => validateNames ns [] && validateRowChildren cs
  | _ => true

/-- The child loop of `validateSchemaRecursive`: recurse only into row-typed
children. -/
def validateRowChildren : List VType → Bool
  | [] => true
  | c :: cs =>
    (match c with
     | .row ns' cs' => validateSchemaRecursive (.row ns' cs')
     | _ => true) && validateRowChildren cs
end

/-- Claim-level predicate (following the claim's words, for comparison with
`validateSchemaRecursive`): the field names at one struct level are bad — some
name is empty or two names coincide. -/
def badLevel (ns : List String) : Prop := (∃ n ∈ ns, n = "") ∨ ¬ ns.Nodup

instance (ns : List String) : Decidable (badLevel ns) := by
  unfold badLevel; infer_instance

mutual
/-- Claim-level predicate (following the claim's words): some struct level of
the schema — the top level or any nested struct, including structs nested
inside arrays and maps — has an empty or duplicate field name. -/
def anyBadStructLevel : VType → Bool
  | .scalar _ => false
  | .row ns cs => decide (badLevel ns) || anyBadList cs
  | .array e => anyBadStructLevel e
  | .map k v => anyBadStructLevel k || anyBadStructLevel v

/-- `anyBadStructLevel` over a list of children. -/
def anyBadList : List VType → Bool
  | [] => false
  | c :: cs => anyBadStructLevel c || anyBadList cs
end

mutual
/-- Amended claim-level predicate: a bad struct level reachable from the root
through struct children only (this is what `validateSchemaRecursive` actually
inspects). -/
def chainBadStructLevel : VType → Bool
  | .row ns cs => decide (badLevel ns) || chainBadList cs
  | _ => false

/-- `chainBadStructLevel` over a list of children: only row children are
inspected. -/
def chainBadList : List VType → Bool
  | [] => false
  | c :: cs =>
    (match c with
     | .row ns' cs' => chainBadStructLevel (.row ns' cs')
     | _ => false) || chainBadList cs
end

/-- State of `ArrowDataBufferSink` (Writer.cpp:37-98) together with its owned
destination `FileSink`.  Byte payloads are abstracted to byte counts:
`buffer` is the current size of the in-memory `DataBuffer`, `bytesFlushed`
is the `bytesFlushed_` counter, `dest` is the list of chunk sizes delivered to
the destination sink by past flushes, `sinkAlive` is whether `sink_` still
holds a destination (false after `abort`), and `sinkClosed` mirrors
`sink_->isClosed()`. -/
structure BufferedSink : Type where
  sinkAlive : Bool
  sinkClosed : Bool
  dest : List Nat
  buffer : Nat
  bytesFlushed : Nat
deriving Repr, DecidableEq

/-- A freshly constructed `ArrowDataBufferSink`: live destination, empty
buffer, nothing flushed. -/
def freshStream : BufferedSink :=
  { sinkAlive := true, sinkClosed := false, dest := [], buffer := 0,
    bytesFlushed := 0 }

/-- `ArrowDataBufferSink::Write` (Writer.cpp:59-66): append `n` bytes to the
in-memory buffer.  The capacity reservation (`growRatio_`) only affects
allocation, not the observable buffer contents, so it is not modelled.  No
destination I/O happens on this call. -/
def streamWrite (st : BufferedSink) (n : Nat) : BufferedSink :=
  { st with buffer := st.buffer + n }

/-- `ArrowDataBufferSink::Flush` (Writer.cpp:68-72): add the buffered size to
`bytesFlushed_`, hand the whole buffer to the destination sink as one write,
and leave the buffer empty.  The destination handle must still be present
(`none` models the crash on a sink reset by `abort`). -/
def streamFlush (st : BufferedSink) : Option BufferedSink :=
  if st.sinkAlive then
    some { st with
           bytesFlushed := st.bytesFlushed + st.buffer,
           dest := st.dest ++ [st.buffer],
           buffer := 0 }
  else none

/-- `ArrowDataBufferSink::Tell` (Writer.cpp:74-76): the logical write offset,
`bytesFlushed_ + buffer_.size()`.  A pure observer: it takes the state and
returns a number, performing no flush and no state change. -/
def streamTell (st : BufferedSink) : Nat :=
  st.bytesFlushed + st.buffer

/-- `ArrowDataBufferSink::abort` (Writer.cpp:88-91): drop the destination
handle and clear the buffer without flushing. -/
def streamAbort (st : BufferedSink) : BufferedSink :=
  { st with sinkAlive := false, buffer := 0 }

/-- One operation of a `BufferedSink` usage sequence: a buffered write of `n`
bytes, or a flush. -/
inductive SinkOp : Type where
  | write (n : Nat)
  | flush
deriving Repr, DecidableEq

/-- Apply one sink operation. -/
def sinkOpApply (st : BufferedSink) : SinkOp → Option BufferedSink
  | .write n => some (streamWrite st n)
  | .flush => streamFlush st

/-- Run a sequence of sink operations. -/
def runSink : BufferedSink → List SinkOp → Option BufferedSink
  | st, [] => some st
  | st, op :: ops =>
    match sinkOpApply st op with
    | some st' => runSink st' ops
    | none => none

/-- Total number of bytes submitted by the write operations of a sequence. -/
def sumWrites : List SinkOp → Nat
  | [] => 0
  | .write n :: ops => n + sumWrites ops
  | .flush :: ops => sumWrites ops

/-- Errors raised by the writer operations.  `invalidSchema` is the
construction-time `VELOX_USER_CHECK` of `validateSchemaRecursive`;
`schemaMismatch` is the `VELOX_USER_CHECK` at Writer.cpp:426-428;
`notRowVector` is the `VELOX_CHECK_NOT_NULL` in `needFlatten`
(Writer.cpp:524-525); `conversionFailure` stands for a failed Arrow
import/shape mismatch; `nullDeref` models a dereference of a reset handle;
`outOfRange` models `std::vector::at` past the end. -/
inductive Err : Type where
  | invalidSchema
  | schemaMismatch
  | notRowVector
  | conversionFailure
  | nullDeref
  | outOfRange
deriving Repr, DecidableEq

/-- `ArrowContext` (Writer.cpp:100-108): the lazily created encoder handle
(`writer`, modelled by its presence), the canonical reconciled schema
(`schema`, set on the first write), the staged row/byte counters, and the
per-column fragment sequences (`stagingChunks`).  A fragment is identified by
the id of the batch that contributed it. -/
structure ArrowCtx : Type where
  writer : Bool
  schema : Option (List ArrowField)
  stagingRows : Nat
  stagingBytes : Nat
  stagingChunks : List (List Nat)
deriving Repr

/-- A materialized row-group table handed to the encoder: the staged row count
it was tagged with and the per-column fragment sequences it was built from. -/
structure RowGroup : Type where
  rows : Nat
  chunks : List (List Nat)
deriving Repr

/-- One input batch (`VectorPtr` handed to `Writer::write`): a model id for
fragment tracking, its logical type, whether the vector is actually a
`RowVector` (the `dynamic_pointer_cast` in `needFlatten` succeeds), whether its
children carry non-flat encodings (the `any_of` in `needFlatten`; flattening
itself does not change any modelled observable), the Arrow fields produced for
it by `exportToArrow`/`ImportSchema`, its row count, and its estimated flat
byte size. -/
structure Vec : Type where
  id : Nat
  typ : VType
  isRowVec : Bool
  nonFlatChildren : Bool
  arrowFields : List ArrowField
  numRows : Nat
  estBytes : Nat

/-- `Writer::needFlatten` (Writer.cpp:522-536): fatal if the input is not a
`RowVector`; otherwise report whether any child needs flattening. -/
def needFlatten (v : Vec) : Except Err Bool :=
  if v.isRowVec then .ok v.nonFlatChildren else .error .notRowVector

/-- The full `Writer` state: the immutable logical schema (`schema_`), the
buffered sink (`stream_`), the Arrow context (`arrowContext_`, `none` after
`abort`), plus the observable effects on the external encoder: `emitted` is
the list of row-group tables handed to `WriteTable`, `encoderOpens` counts
`FileWriter::Open` calls, and `footers` counts `FileWriter::Close` calls
(each of which finalizes the file footer/metadata). -/
structure WriterState : Type where
  schema : VType
  stream : BufferedSink
  ctx : Option ArrowCtx
  emitted : List RowGroup
  encoderOpens : Nat
  footers : Nat
deriving Repr

/-- Append `id` to each of the first `m` lists (the staging loop at
Writer.cpp:471-474 runs over the record batch's `m` columns and uses
`stagingChunks.at(colIdx)`, which is out of range — `none` — when there are
fewer than `m` column sequences); sequences beyond the first `m` are left
unchanged. -/
def appendToFirst : Nat → List (List Nat) → Nat → Option (List (List Nat))
  | 0, ls, _ => some ls
  | _ + 1, [], _ => none
  | m + 1, l :: ls, id =>
    match appendToFirst m ls id with
    | some ls' => some ((l ++ [id]) :: ls')
    | none => none

/-- Take the first `n` column sequences (the chunk-building loop at
Writer.cpp:387-394 runs over the schema's `n` fields and uses
`stagingChunks.at(colIdx)`); `none` if fewer than `n` exist. -/
def takeColumns : Nat → List (List Nat) → Option (List (List Nat))
  | 0, _ => some []
  | _ + 1, [] => none
  | n + 1, l :: ls =>
    match takeColumns n ls with
    | some ls' => some (l :: ls')
    | none => none

/-- The first-write initialization at Writer.cpp:455-462: if the canonical
schema is not yet set, remember the reconciled fields and allocate one empty
fragment sequence per column. -/
def stageInit (c : ArrowCtx) (nf : List ArrowField) : ArrowCtx :=
  if c.schema.isNone then
    { c with schema := some nf, stagingChunks := List.replicate nf.length [] }
  else c

/-- Embedding of `Writer::flush` (Writer.cpp:367-408).  If nothing is staged,
do nothing.  Otherwise: lazily open the encoder (counted in `encoderOpens`),
materialize one table from the per-column staged fragment sequences tagged
with the staged row count, hand it to the encoder (append to `emitted`),
flush the buffered sink, and clear all fragment sequences and both counters. -/
def Writer.flush (s : WriterState) : Except Err WriterState :=
  match s.ctx with
  | none => .error .nullDeref
  | some c =>
    if 0 < c.stagingRows then
      match c.schema with
      | none => .error .nullDeref
      | some sch =>
        let opens := if c.writer then s.encoderOpens else s.encoderOpens + 1
        match takeColumns sch.length c.stagingChunks with
        | none => .error .outOfRange
        | some cols =>
          match streamFlush s.stream with
          | none => .error .nullDeref
          | some st =>
            .ok { s with
                  stream := st,
                  emitted := s.emitted ++ [⟨c.stagingRows, cols⟩],
                  encoderOpens := opens,
                  ctx := some { c with
                                writer := true,
                                stagingChunks :=
                                  c.stagingChunks.map (fun _ => []),
                                stagingRows := 0,
                                stagingBytes := 0 } }
    else .ok s

/-- Embedding of `Writer::write` (Writer.cpp:425-477), parameterized by the
flush policy `p` (`shouldFlush`, fed the staged row count and byte estimate).
Order of operations follows the source: schema-equivalence check, flatten
check, conversion and name reconciliation, first-write context
initialization, flush-policy consultation on the counters as they are
*before* staging (with a flush if it fires), then staging of the batch. -/
def Writer.write (p : Nat → Nat → Bool) (s : WriterState) (v : Vec) :
    Except Err WriterState :=
  if VType.equivalent v.typ s.schema = false then .error .schemaMismatch
  else if v.isRowVec = false then .error .notRowVector
  else
    match s.schema with
    | VType.row ns cs =>
      match updateFields v.arrowFields ns cs with
      | none => .error .conversionFailure
      | some nf =>
        match s.ctx with
        | none => .error .nullDeref
        | some c0 =>
          let c1 := stageInit c0 nf
          let s1 := { s with ctx := some c1 }
          match (if p c1.stagingRows c1.stagingBytes then Writer.flush s1
                 else .ok s1) with
          | .error e => .error e
          | .ok s2 =>
            match s2.ctx with
            | none => .error .nullDeref
            | some c2 =>
              match appendToFirst nf.length c2.stagingChunks v.id with
              | none => .error .outOfRange
              | some ch =>
                let c3 : ArrowCtx :=
                  { c2 with
                    stagingChunks := ch,
                    stagingRows := c2.stagingRows + v.numRows,
                    stagingBytes := c2.stagingBytes + v.estBytes }
                .ok { s2 with ctx := some c3 }
    | _ => .error .conversionFailure

/-- Embedding of `Writer::close` (Writer.cpp:488-498): final flush, close the
encoder if it was opened (emitting the footer, counted in `footers`), close
the buffered sink (which flushes the remaining buffer and closes the
destination), and clear the fragment-sequence vector itself. -/
def Writer.close (s : WriterState) : Except Err WriterState :=
  match Writer.flush s with
  | .error e => .error e
  | .ok s1 =>
    match s1.ctx with
    | none => .error .nullDeref
    | some c1 =>
      let s2 := if c1.writer
        then { s1 with footers := s1.footers + 1,
                       ctx := some { c1 with writer := false } }
        else s1
      match streamFlush s2.stream with
      | none => .error .nullDeref
      | some st =>
        match s2.ctx with
        | none => .error .nullDeref
        | some c2 =>
          .ok { s2 with
                stream := { st with sinkClosed := true },
                ctx := some { c2 with stagingChunks := [] } }

/-- Embedding of `Writer::abort` (Writer.cpp:500-503): abort the buffered sink
(drop the destination handle, clear the buffer, flush nothing) and drop the
whole Arrow context. -/
def Writer.abort (s : WriterState) : WriterState :=
  { s with stream := streamAbort s.stream, ctx := none }

/-- The `Writer` state right after a successful construction over the row
schema `VType.row ns cs`: fresh sink, empty Arrow context, no encoder, no
output. -/
def initState (ns : List String) (cs : List VType) : WriterState :=
  { schema := .row ns cs,
    stream := freshStream,
    ctx := some { writer := false, schema := none, stagingRows := 0,
                  stagingBytes := 0, stagingChunks := [] },
    emitted := [],
    encoderOpens := 0,
    footers := 0 }

/-- Embedding of the `Writer` constructor (Writer.cpp:323-353) restricted to
the modelled observables: `validateSchemaRecursive` runs once, before any
data is written, and a violation is the fatal configuration error
`invalidSchema`; on success the writer starts in `initState`. -/
def mkWriter (ns : List String) (cs : List VType) : Except Err WriterState :=
  if validateSchemaRecursive (.row ns cs) then .ok (initState ns cs)
  else .error .invalidSchema

/-- Run a sequence of `write` calls. -/
def runWrites (p : Nat → Nat → Bool) :
    WriterState → List Vec → Except Err WriterState
  | s, [] => .ok s
  | s, v :: vs =>
    match Writer.write p s v with
    | .ok s' => runWrites p s' vs
    | .error e => .error e

/-- A public staging-phase operation on an open writer: a `write` call or an
explicit `flush` call. -/
inductive WOp : Type where
  | write (v : Vec)
  | flush

/-- Apply one public operation. -/
def wopApply (p : Nat → Nat → Bool) (s : WriterState) :
    WOp → Except Err WriterState
  | .write v => Writer.write p s v
  | .flush => Writer.flush s

/-- Run a sequence of public operations. -/
def runOps (p : Nat → Nat → Bool) :
    WriterState → List WOp → Except Err WriterState
  | s, [] => .ok s
  | s, op :: ops =>
    match wopApply p s op with
    | .ok s' => runOps p s' ops
    | .error e => .error e

/-- Membership of a fragment id in a list of per-column fragment sequences. -/
def memChunksB (id : Nat) (chunks : List (List Nat)) : Bool :=
  chunks.any fun l => l.contains id

/-- Membership of a fragment id in a materialized row group. -/
def idInGroupB (id : Nat) (g : RowGroup) : Bool := memChunksB id g.chunks

/-- The number of emitted row groups that contain a fragment of batch `id`. -/
def groupCount (id : Nat) (s : WriterState) : Nat :=
  s.emitted.countP fun g => idInGroupB id g

/-- Whether a fragment of batch `id` is currently staged. -/
def idInStagingB (id : Nat) (s : WriterState) : Bool :=
  match s.ctx with
  | some c => memChunksB id c.stagingChunks
  | none => false

/-- Staged row count of a writer state (0 if the context was dropped). -/
def stagingRowsOf (s : WriterState) : Nat :=
  match s.ctx with
  | some c => c.stagingRows
  | none => 0

/-- How many places (emitted row groups, plus the staging buffer counted once)
hold a fragment of batch `id`. -/
def occCount (id : Nat) (s : WriterState) : Nat :=
  groupCount id s + (if idInStagingB id s then 1 else 0)

/-- Batch-splitting invariant: every batch id occurs in at most one place —
at most one emitted row group, and not both a row group and staging. -/
def OccInv (s : WriterState) : Prop := ∀ id, occCount id s ≤ 1

/-- The ids in `ids` are fresh for `s`: they occur nowhere in it. -/
def FreshIds (s : WriterState) (ids : List Nat) : Prop :=
  ∀ id ∈ ids, occCount id s = 0

/-- Row-count invariant for a flush policy that fires once `L` staged rows are
reached, with batches of at most `M` rows: staging and every emitted row group
hold at most `L - 1 + M` rows, and emitted row groups are nonempty. -/
def RowBound (L M : Nat) (s : WriterState) : Prop :=
  stagingRowsOf s ≤ L - 1 + M ∧
    ∀ g ∈ s.emitted, 0 < g.rows ∧ g.rows ≤ L - 1 + M

/-- Number of top-level fields of a row type. -/
def rowArity : VType → Nat
  | .row ns _ => ns.length
  | _ => 0

/-- Staging-shape invariant (claim C10): the context is present; once the
canonical schema is set, its field count equals the logical schema's arity and
there is one fragment sequence per field (before that, there are none); and
all fragment sequences have one common length. -/
def ChunksShape (s : WriterState) : Prop :=
  ∃ c, s.ctx = some c ∧
    (match c.schema with
     | some sch => sch.length = rowArity s.schema ∧
         c.stagingChunks.length = sch.length
     | none => c.stagingChunks = []) ∧
    ∃ k, ∀ l ∈ c.stagingChunks, l.length = k

/-- Characterization of the name loop: it succeeds exactly when every name is
nonempty, no name repeats, and no name collides with the already-seen set. -/
theorem validateNames_spec (ns : List String) : ∀ seen,
    validateNames ns seen = true ↔
      ((∀ n ∈ ns, n ≠ "" ∧ n ∉ seen) ∧ ns.Nodup) := by
  induction ns with
  | nil => intro seen; simp [validateNames]
  | cons n ns ih =>
    intro seen
    by_cases h1 : n = ""
    · rw [validateNames, if_pos h1]
      refine iff_of_false (by simp) ?_
      rintro ⟨h3, -⟩
      exact (h3 n (by simp)).1 h1
    · by_cases h2 : n ∈ seen
      · rw [validateNames, if_neg h1, if_pos (by simpa using h2)]
        refine iff_of_false (by simp) ?_
        rintro ⟨h3, -⟩
        exact (h3 n (by simp)).2 h2
      · rw [validateNames, if_neg h1,
           if_neg (show ¬(seen.contains n = true) by simpa using h2), ih]
        constructor
        · rintro ⟨hall, hnd⟩
          refine ⟨?_, ?_⟩
          · intro m hm
            rcases List.mem_cons.mp hm with rfl | hm'
            · exact ⟨h1, h2⟩
            · have := hall m hm'
              exact ⟨this.1, fun hs => this.2 (List.mem_cons_of_mem _ hs)⟩
          · refine List.nodup_cons.mpr ⟨?_, hnd⟩
            intro hn
            exact (hall n hn).2 (List.mem_cons_self _ _)
        · rintro ⟨hall, hnd⟩
          refine ⟨?_, (List.nodup_cons.mp hnd).2⟩
          intro m hm
          have h := hall m (List.mem_cons_of_mem _ hm)
          refine ⟨h.1, ?_⟩
          intro hmem
          rcases List.mem_cons.mp hmem with rfl | hm'
          · exact (List.nodup_cons.mp hnd).1 hm
          · exact h.2 hm'

/-- With an empty seen-set, the name loop computes exactly the negation of the
claim's one-level badness predicate. -/
theorem validateNames_empty_seen (ns : List String) :
    validateNames ns [] = !decide (badLevel ns) := by
  by_cases hb : badLevel ns
  · rw [decide_eq_true hb, Bool.not_true]
    cases h : validateNames ns [] with
    | false => rfl
    | true =>
      have := (validateNames_spec ns []).mp h
      exfalso
      rcases hb with ⟨m, hm, he⟩ | hnd
      · exact (this.1 m hm).1 he
      · exact hnd this.2
  · rw [decide_eq_false hb, Bool.not_false]
    apply (validateNames_spec ns []).mpr
    rw [badLevel] at hb
    push_neg at hb
    exact ⟨fun m hm => ⟨hb.1 m hm, by simp⟩, hb.2⟩

mutual
/-- `validateSchemaRecursive` computes exactly the negation of the struct-chain
badness predicate: only bad levels reachable through struct children are
detected. -/
theorem val_chain (t : VType) :
    validateSchemaRecursive t = !chainBadStructLevel t := by
  match t with
  | .scalar _ => simp [validateSchemaRecursive, chainBadStructLevel]
  | .array _ => simp [validateSchemaRecursive, chainBadStructLevel]
  | .map _ _ => simp [validateSchemaRecursive, chainBadStructLevel]
  | .row ns cs =>
    rw [validateSchemaRecursive, chainBadStructLevel, valList_chain cs,
        validateNames_empty_seen]
    cases h : decide (badLevel ns) <;> simp
termination_by sizeOf t

/-- List version of `val_chain`. -/
theorem valList_chain (cs : List VType) :
    validateRowChildren cs = !chainBadList cs := by
  match cs with
  | [] => simp [validateRowChildren, chainBadList]
  | (VType.scalar k) :: cs' =>
    simp [validateRowChildren, chainBadList, valList_chain cs']
  | (VType.array e) :: cs' =>
    simp [validateRowChildren, chainBadList, valList_chain cs']
  | (VType.map k v) :: cs' =>
    simp [validateRowChildren, chainBadList, valList_chain cs']
  | (VType.row ns' cs'') :: cs' =>
    rw [validateRowChildren, chainBadList, valList_chain cs',
        val_chain (.row ns' cs'')]
    cases h : chainBadStructLevel (.row ns' cs'') <;> simp
termination_by sizeOf cs
end


/-- `flush` is a no-op when nothing is staged. -/
theorem flush_zero (s : WriterState) (c : ArrowCtx) (hc : s.ctx = some c)
    (h0 : c.stagingRows = 0) : Writer.flush s = .ok s := by
  rw [Writer.flush, hc]
  simp [h0]

/-- Anatomy of a successful `flush`: either nothing was staged and the state
is unchanged, or one row group was emitted from the staged fragments and the
staging buffer was fully cleared. -/
theorem flush_ok_cases {s s' : WriterState} (h : Writer.flush s = .ok s') :
    ∃ c, s.ctx = some c ∧
      ((c.stagingRows = 0 ∧ s' = s) ∨
       (0 < c.stagingRows ∧ ∃ sch cols st,
         c.schema = some sch ∧
         takeColumns sch.length c.stagingChunks = some cols ∧
         streamFlush s.stream = some st ∧
         s' = { s with
                stream := st,
                emitted := s.emitted ++ [⟨c.stagingRows, cols⟩],
                encoderOpens :=
                  if c.writer then s.encoderOpens else s.encoderOpens + 1,
                ctx := some { c with
                              writer := true,
                              stagingChunks :=
                                c.stagingChunks.map (fun _ => []),
                              stagingRows := 0,
                              stagingBytes := 0 } })) := by
  rw [Writer.flush] at h
  cases hc : s.ctx with
  | none => rw [hc] at h; exact absurd h (by simp)
  | some c =>
    rw [hc] at h
    refine ⟨c, rfl, ?_⟩
    simp only at h
    by_cases hr : 0 < c.stagingRows
    · rw [if_pos hr] at h
      cases hsch : c.schema with
      | none => rw [hsch] at h; exact absurd h (by simp)
      | some sch =>
        rw [hsch] at h
        simp only at h
        cases htc : takeColumns sch.length c.stagingChunks with
        | none => rw [htc] at h; exact absurd h (by simp)
        | some cols =>
          rw [htc] at h
          simp only at h
          cases hsf : streamFlush s.stream with
          | none => rw [hsf] at h; exact absurd h (by simp)
          | some st =>
            rw [hsf] at h
            simp only [Except.ok.injEq] at h
            exact Or.inr ⟨hr, sch, cols, st, rfl, htc, rfl, h.symm⟩
    · rw [if_neg hr] at h
      simp only [Except.ok.injEq] at h
      exact Or.inl ⟨by omega, h.symm⟩

/-- A failing `flush` raises only the modelled crash errors. -/
theorem flush_error_shape {s : WriterState} {e : Err}
    (h : Writer.flush s = .error e) : e = .nullDeref ∨ e = .outOfRange := by
  rw [Writer.flush] at h
  cases hc : s.ctx with
  | none => rw [hc] at h; simp at h; exact Or.inl h.symm
  | some c =>
    rw [hc] at h
    simp only at h
    by_cases hr : 0 < c.stagingRows
    · rw [if_pos hr] at h
      cases hsch : c.schema with
      | none => rw [hsch] at h; simp at h; exact Or.inl h.symm
      | some sch =>
        rw [hsch] at h
        simp only at h
        cases htc : takeColumns sch.length c.stagingChunks with
        | none => rw [htc] at h; simp at h; exact Or.inr h.symm
        | some cols =>
          rw [htc] at h
          simp only at h
          cases hsf : streamFlush s.stream with
          | none => rw [hsf] at h; simp at h; exact Or.inl h.symm
          | some st => rw [hsf] at h; simp at h
    · rw [if_neg hr] at h; simp at h

/-- Anatomy of a successful `write`: both entry checks passed, the schema is a
row type, reconciliation succeeded, the context was present, the flush policy
was consulted on the pre-staging counters (flushing if it fired), and the
batch was then staged into every column. -/
theorem write_ok_cases {p : Nat → Nat → Bool} {s s' : WriterState} {v : Vec}
    (h : Writer.write p s v = .ok s') :
    VType.equivalent v.typ s.schema = true ∧ v.isRowVec = true ∧
    ∃ ns cs nf c0 s2 c2 ch,
      s.schema = VType.row ns cs ∧
      updateFields v.arrowFields ns cs = some nf ∧
      s.ctx = some c0 ∧
      ((p (stageInit c0 nf).stagingRows (stageInit c0 nf).stagingBytes = true ∧
        Writer.flush { s with ctx := some (stageInit c0 nf) } = .ok s2) ∨
       (p (stageInit c0 nf).stagingRows (stageInit c0 nf).stagingBytes = false ∧
        s2 = { s with ctx := some (stageInit c0 nf) })) ∧
      s2.ctx = some c2 ∧
      appendToFirst nf.length c2.stagingChunks v.id = some ch ∧
      s' = { s2 with ctx := some { c2 with
              stagingChunks := ch,
              stagingRows := c2.stagingRows + v.numRows,
              stagingBytes := c2.stagingBytes + v.estBytes } } := by
  rw [Writer.write] at h
  by_cases he : VType.equivalent v.typ s.schema = false
  · rw [if_pos he] at h; exact absurd h (by simp)
  · rw [if_neg he] at h
    by_cases hrv : v.isRowVec = false
    · rw [if_pos hrv] at h; exact absurd h (by simp)
    · rw [if_neg hrv] at h
      refine ⟨by simpa using he, by simpa using hrv, ?_⟩
      cases hsc : s.schema with
      | scalar k => rw [hsc] at h; exact absurd h (by simp)
      | array e => rw [hsc] at h; exact absurd h (by simp)
      | map a b => rw [hsc] at h; exact absurd h (by simp)
      | row ns cs =>
        rw [hsc] at h
        simp only at h
        cases huf : updateFields v.arrowFields ns cs with
        | none => rw [huf] at h; exact absurd h (by simp)
        | some nf =>
          rw [huf] at h
          simp only at h
          cases hctx : s.ctx with
          | none => rw [hctx] at h; exact absurd h (by simp)
          | some c0 =>
            rw [hctx] at h
            simp only at h
            refine ⟨ns, cs, nf, c0, ?_⟩
            by_cases hp : p (stageInit c0 nf).stagingRows
                (stageInit c0 nf).stagingBytes = true
            · rw [if_pos hp] at h
              cases hfl : Writer.flush
                  { s with schema := VType.row ns cs,
                           ctx := some (stageInit c0 nf) } with
              | error e => rw [hfl] at h; exact absurd h (by simp)
              | ok s2 =>
                rw [hfl] at h
                simp only at h
                cases hc2 : s2.ctx with
                | none => rw [hc2] at h; exact absurd h (by simp)
                | some c2 =>
                  rw [hc2] at h
                  simp only at h
                  cases hap : appendToFirst nf.length c2.stagingChunks v.id with
                  | none => rw [hap] at h; exact absurd h (by simp)
                  | some ch =>
                    rw [hap] at h
                    simp only [Except.ok.injEq] at h
                    exact ⟨s2, c2, ch, rfl, huf, rfl,
                      Or.inl ⟨hp, rfl⟩, hc2, hap, h.symm⟩
            · rw [if_neg hp] at h
              simp only at h
              cases hap : appendToFirst nf.length
                  (stageInit c0 nf).stagingChunks v.id with
              | none => rw [hap] at h; exact absurd h (by simp)
              | some ch =>
                rw [hap] at h
                simp only [Except.ok.injEq] at h
                exact ⟨_, stageInit c0 nf, ch, rfl, huf, rfl,
                  Or.inr ⟨by simpa using hp, rfl⟩, rfl, hap, h.symm⟩

/-- A failing `write` raises one of the modelled errors, and the two entry
errors pin down which check failed. -/
theorem write_error_cases {p : Nat → Nat → Bool} {s : WriterState} {v : Vec}
    {e : Err} (h : Writer.write p s v = .error e) :
    (e = .schemaMismatch ∧ VType.equivalent v.typ s.schema = false) ∨
    (e = .notRowVector ∧ v.isRowVec = false) ∨
    e = .conversionFailure ∨ e = .nullDeref ∨ e = .outOfRange := by
  rw [Writer.write] at h
  by_cases he : VType.equivalent v.typ s.schema = false
  · rw [if_pos he] at h
    simp only [Except.error.injEq] at h
    exact Or.inl ⟨h.symm, he⟩
  · rw [if_neg he] at h
    by_cases hrv : v.isRowVec = false
    · rw [if_pos hrv] at h
      simp only [Except.error.injEq] at h
      exact Or.inr (Or.inl ⟨h.symm, hrv⟩)
    · rw [if_neg hrv] at h
      cases hsc : s.schema with
      | scalar k => rw [hsc] at h; simp at h; simp [h.symm]
      | array a => rw [hsc] at h; simp at h; simp [h.symm]
      | map a b => rw [hsc] at h; simp at h; simp [h.symm]
      | row ns cs =>
        rw [hsc] at h
        simp only at h
        cases huf : updateFields v.arrowFields ns cs with
        | none => rw [huf] at h; simp at h; simp [h.symm]
        | some nf =>
          rw [huf] at h
          simp only at h
          cases hctx : s.ctx with
          | none => rw [hctx] at h; simp at h; simp [h.symm]
          | some c0 =>
            rw [hctx] at h
            simp only at h
            by_cases hp : p (stageInit c0 nf).stagingRows
                (stageInit c0 nf).stagingBytes = true
            · rw [if_pos hp] at h
              cases hfl : Writer.flush
                  { s with schema := VType.row ns cs,
                           ctx := some (stageInit c0 nf) } with
              | error e' =>
                rw [hfl] at h
                simp only [Except.error.injEq] at h
                rcases flush_error_shape hfl with h' | h' <;> simp [h.symm, h']
              | ok s2 =>
                rw [hfl] at h
                simp only at h
                cases hc2 : s2.ctx with
                | none => rw [hc2] at h; simp at h; simp [h.symm]
                | some c2 =>
                  rw [hc2] at h
                  simp only at h
                  cases hap : appendToFirst nf.length c2.stagingChunks v.id with
                  | none => rw [hap] at h; simp at h; simp [h.symm]
                  | some ch => rw [hap] at h; simp at h
            · rw [if_neg hp] at h
              simp only at h
              cases hap : appendToFirst nf.length
                  (stageInit c0 nf).stagingChunks v.id with
              | none => rw [hap] at h; simp at h; simp [h.symm]
              | some ch => rw [hap] at h; simp at h

/-- `takeColumns` succeeds and takes a prefix when enough columns exist. -/
theorem takeColumns_of_le : ∀ (n : Nat) (l : List (List Nat)), n ≤ l.length →
    takeColumns n l = some (l.take n)
  | 0, l, _ => by simp [takeColumns]
  | n + 1, [], h => by simp at h
  | n + 1, l :: ls, h => by
    rw [takeColumns, takeColumns_of_le n ls (by simpa using h)]
    simp

/-- Fragment ids of the taken columns come from the original columns. -/
theorem takeColumns_mem : ∀ {n : Nat} {l cols : List (List Nat)},
    takeColumns n l = some cols → ∀ x, memChunksB x cols = true →
    memChunksB x l = true := by
  intro n
  induction n with
  | zero =>
    intro l cols h x hx
    rw [takeColumns] at h
    simp only [Option.some.injEq] at h
    rw [← h] at hx
    simp [memChunksB] at hx
  | succ n ih =>
    intro l cols h x hx
    match l with
    | [] => rw [takeColumns] at h; simp at h
    | l₀ :: ls =>
      rw [takeColumns] at h
      cases ht : takeColumns n ls with
      | none => rw [ht] at h; simp at h
      | some cols' =>
        rw [ht] at h
        simp only [Option.some.injEq] at h
        rw [← h] at hx
        simp only [memChunksB, List.any_cons] at hx ⊢
        rcases Bool.or_eq_true_iff.mp hx with h1 | h2
        · exact Bool.or_eq_true_iff.mpr (Or.inl h1)
        · exact Bool.or_eq_true_iff.mpr (Or.inr (ih ht x h2))

/-- `appendToFirst` preserves the number of column sequences. -/
theorem appendToFirst_len : ∀ {m : Nat} {l : List (List Nat)} {id : Nat}
    {l' : List (List Nat)}, appendToFirst m l id = some l' →
    l'.length = l.length := by
  intro m
  induction m with
  | zero => intro l id l' h; rw [appendToFirst] at h; simp at h; simp [h.symm]
  | succ m ih =>
    intro l id l' h
    match l with
    | [] => rw [appendToFirst] at h; simp at h
    | l₀ :: ls =>
      rw [appendToFirst] at h
      cases ha : appendToFirst m ls id with
      | none => rw [ha] at h; simp at h
      | some ls' =>
        rw [ha] at h
        simp only [Option.some.injEq] at h
        rw [← h]
        simp [ih ha]

/-- Appending to as many columns as exist appends to every column. -/
theorem appendToFirst_full : ∀ (l : List (List Nat)) (id : Nat),
    appendToFirst l.length l id = some (l.map (fun c => c ++ [id]))
  | [], _ => by simp [appendToFirst]
  | l₀ :: ls, id => by
    rw [List.length_cons, appendToFirst, appendToFirst_full ls id]
    simp

/-- Fragment-id membership after staging: the staged columns hold exactly the
old ids plus (when at least one column is written) the new batch's id. -/
theorem appendToFirst_mem : ∀ {m : Nat} {l : List (List Nat)} {id : Nat}
    {l' : List (List Nat)}, appendToFirst m l id = some l' → ∀ x,
    memChunksB x l' =
      (memChunksB x l || (decide (x = id) && decide (0 < m))) := by
  intro m
  induction m with
  | zero =>
    intro l id l' h x
    rw [appendToFirst] at h
    simp only [Option.some.injEq] at h
    rw [← h]
    simp
  | succ m ih =>
    intro l id l' h x
    match l with
    | [] => rw [appendToFirst] at h; simp at h
    | l₀ :: ls =>
      rw [appendToFirst] at h
      cases ha : appendToFirst m ls id with
      | none => rw [ha] at h; simp at h
      | some ls' =>
        rw [ha] at h
        simp only [Option.some.injEq] at h
        rw [← h]
        have hih := ih ha x
        simp only [memChunksB, List.any_cons] at hih ⊢
        rw [hih]
        by_cases hx : x = id
        · subst hx
          have h1 : (l₀ ++ [x]).contains x = true := by
            simp [List.elem_iff]
          rw [h1]
          simp
        · have h1 : (l₀ ++ [id]).contains x = l₀.contains x := by
            cases h2 : l₀.contains x with
            | true =>
              have h3 : x ∈ l₀ := by simpa using h2
              have h4 : x ∈ l₀ ++ [id] := List.mem_append_left _ h3
              simpa using h4
            | false =>
              have h3 : x ∉ l₀ := by simpa using h2
              have h4 : x ∉ l₀ ++ [id] := by simp [h3, hx]
              simpa using h4
          rw [h1]
          simp [hx, Bool.or_assoc]

/-- Clearing every column leaves no fragment ids. -/
theorem memChunksB_clear (l : List (List Nat)) (x : Nat) :
    memChunksB x (l.map fun _ => ([] : List Nat)) = false := by
  induction l with
  | nil => simp [memChunksB]
  | cons a l ih => simpa [memChunksB] using ih

/-- Freshly allocated empty columns hold no fragment ids. -/
theorem memChunksB_replicate (n x : Nat) :
    memChunksB x (List.replicate n ([] : List Nat)) = false := by
  induction n with
  | zero => simp [memChunksB]
  | succ n ih => simpa [memChunksB, List.replicate_succ] using ih

/-- Successful reconciliation produces one field per logical child. -/
theorem updateFields_len : ∀ {ns : List String} {afs : List ArrowField}
    {cs : List VType} {nf : List ArrowField},
    updateFields afs ns cs = some nf → nf.length = ns.length := by
  intro ns
  induction ns with
  | nil =>
    intro afs cs nf h
    cases cs with
    | nil =>
      cases afs with
      | nil =>
        have hd : updateFields [] [] [] = some [] := by
          rw [updateFields.eq_def]
        rw [hd] at h
        simp only [Option.some.injEq] at h
        simp [← h]
      | cons af afs' =>
        have hd : updateFields (af :: afs') [] [] = some [] := by
          rw [updateFields.eq_def]
        rw [hd] at h
        simp only [Option.some.injEq] at h
        simp [← h]
    | cons c cs' =>
      cases afs with
      | nil =>
        have hd : updateFields [] [] (c :: cs') = none := by
          rw [updateFields.eq_def]
        rw [hd] at h
        cases h
      | cons af afs' =>
        have hd : updateFields (af :: afs') [] (c :: cs') = none := by
          rw [updateFields.eq_def]
        rw [hd] at h
        cases h
  | cons n ns ih =>
    intro afs cs nf h
    cases afs with
    | nil =>
      cases cs with
      | nil =>
        have hd : updateFields [] (n :: ns) [] = none := by
          rw [updateFields.eq_def]
        rw [hd] at h
        cases h
      | cons c cs' =>
        have hd : updateFields [] (n :: ns) (c :: cs') = none := by
          rw [updateFields.eq_def]
        rw [hd] at h
        cases h
    | cons af afs' =>
      cases cs with
      | nil =>
        have hd : updateFields (af :: afs') (n :: ns) [] = none := by
          rw [updateFields.eq_def]
        rw [hd] at h
        cases h
      | cons c cs' =>
        rw [updateFields] at h
        cases h1 : updateFieldNameRecursive af c n with
        | none => rw [h1] at h; simp at h
        | some nf0 =>
          rw [h1] at h
          cases h2 : updateFields afs' ns cs' with
          | none => rw [h2] at h; simp at h
          | some rest =>
            rw [h2] at h
            simp only [Option.some.injEq] at h
            rw [← h]
            simp [ih h2]

/-- Running invariant of the buffered sink: from a live sink whose flushed
counter matches the bytes delivered to the destination, any operation sequence
succeeds, keeps that match, and grows `bytesFlushed + buffer` by exactly the
bytes written. -/
theorem runSink_inv : ∀ (ops : List SinkOp) (st : BufferedSink),
    st.sinkAlive = true → st.bytesFlushed = st.dest.sum →
    ∃ st', runSink st ops = some st' ∧ st'.sinkAlive = true ∧
      st'.bytesFlushed = st'.dest.sum ∧
      st'.bytesFlushed + st'.buffer =
        st.bytesFlushed + st.buffer + sumWrites ops := by
  intro ops
  induction ops with
  | nil => intro st h1 h2; exact ⟨st, rfl, h1, h2, by simp [sumWrites]⟩
  | cons op ops ih =>
    intro st h1 h2
    cases op with
    | write n =>
      obtain ⟨st', hrun, ha, hb, hc⟩ :=
        ih (streamWrite st n) (by simpa [streamWrite] using h1)
          (by simpa [streamWrite] using h2)
      refine ⟨st', ?_, ha, hb, ?_⟩
      · rw [runSink]; simpa [sinkOpApply] using hrun
      · rw [hc]; simp [streamWrite, sumWrites]; omega
    | flush =>
      have hfl : streamFlush st = some
          { st with bytesFlushed := st.bytesFlushed + st.buffer,
                    dest := st.dest ++ [st.buffer], buffer := 0 } := by
        rw [streamFlush, if_pos h1]
      obtain ⟨st', hrun, ha, hb, hc⟩ :=
        ih { st with bytesFlushed := st.bytesFlushed + st.buffer,
                     dest := st.dest ++ [st.buffer], buffer := 0 }
          (by simpa using h1) (by simp [h2])
      refine ⟨st', ?_, ha, hb, ?_⟩
      · rw [runSink]; simpa [sinkOpApply, hfl] using hrun
      · rw [hc]; simp [sumWrites]

/-- C7. For every sequence of buffered-sink write and flush operations from a
fresh sink, the run succeeds and `Tell` (`streamTell`, a pure observer that
performs no flush and changes no state) returns exactly the bytes accumulated
by past flushes (`bytesFlushed`, which always equals the total delivered to
the destination) plus the bytes currently buffered; equivalently, the logical
write offset equals the total bytes submitted by the write operations. -/
theorem buffered_sink_tell (ops : List SinkOp) :
    ∃ st, runSink freshStream ops = some st ∧
      streamTell st = st.bytesFlushed + st.buffer ∧
      st.bytesFlushed = st.dest.sum ∧
      streamTell st = sumWrites ops := by
  obtain ⟨st, hrun, ha, hb, hc⟩ :=
    runSink_inv ops freshStream rfl (by simp [freshStream])
  exact ⟨st, hrun, rfl, hb, by simpa [streamTell, freshStream] using hc⟩

/-- C2 counterexample: reconciling a converted map field whose key field is
named `"k0"` (a scalar key, so reconciliation returns that field unchanged)
produces a map type whose key field is the library default `⟨"key", _⟩`, not
the reconciled key field `⟨"k0", _⟩` — the rebuilt map type does not contain
the two reconciled fields themselves. -/
theorem map_reconcile_counterexample :
    updateFieldNameRecursive ⟨"m", .map ⟨"k0", .prim 0⟩ ⟨"v0", .prim 0⟩⟩
        (.map (.scalar 0) (.scalar 0)) "m" =
      some ⟨"m", .map ⟨"key", .prim 0⟩ ⟨"value", .prim 0⟩⟩ ∧
    updateFieldNameRecursive ⟨"k0", .prim 0⟩ (.scalar 0) "" =
      some ⟨"k0", .prim 0⟩ ∧
    ArrowField.mk "key" (.prim 0) ≠ ArrowField.mk "k0" (.prim 0) := by
  refine ⟨?_, ?_, ?_⟩
  · rw [updateFieldNameRecursive]
    simp [ArrowField.typ, updateFieldNameRecursive]
  · rw [updateFieldNameRecursive]
    simp
  · intro h
    injection h with h1 _
    exact absurd h1 (by decide)

/-- C2 amended: for a converted field of map type, reconciliation recurses
independently into the key and value fields (with the empty default name);
the rebuilt map type is built from the reconciled fields' *types* — so names
nested inside them are preserved — wrapped in the interchange library's
default key/value field names, and not from the reconciled fields
themselves. -/
theorem map_reconcile_amended (f kf vf : ArrowField) (kt vt : VType)
    (name : String) (nkf nvf : ArrowField)
    (hf : f.typ = .map kf vf)
    (hk : updateFieldNameRecursive kf kt "" = some nkf)
    (hv : updateFieldNameRecursive vf vt "" = some nvf) :
    updateFieldNameRecursive f (.map kt vt) name =
      some ⟨name, .map ⟨"key", nkf.typ⟩ ⟨"value", nvf.typ⟩⟩ := by
  rw [updateFieldNameRecursive, hf]
  simp [hk, hv]

/-- Witness for the amended C2 theorem at a concrete nested input: the value
field is itself a struct, whose inner field name is taken from the logical
schema and survives into the rebuilt map type. -/
theorem map_reconcile_amended_witness :
    updateFieldNameRecursive
        ⟨"m", .map ⟨"k0", .prim 0⟩ ⟨"v0", .struct_ [⟨"f0", .prim 1⟩]⟩⟩
        (.map (.scalar 0) (.row ["inner"] [.scalar 1])) "m" =
      some ⟨"m", .map ⟨"key", .prim 0⟩
        ⟨"value", .struct_ [⟨"inner", .prim 1⟩]⟩⟩ := by
  have h := map_reconcile_amended
    ⟨"m", .map ⟨"k0", .prim 0⟩ ⟨"v0", .struct_ [⟨"f0", .prim 1⟩]⟩⟩
    ⟨"k0", .prim 0⟩ ⟨"v0", .struct_ [⟨"f0", .prim 1⟩]⟩
    (.scalar 0) (.row ["inner"] [.scalar 1]) "m"
    ⟨"k0", .prim 0⟩ ⟨"", .struct_ [⟨"inner", .prim 1⟩]⟩
    rfl
    (by rw [updateFieldNameRecursive]; simp)
    (by rw [updateFieldNameRecursive]
        simp [ArrowField.typ, updateFields, updateFieldNameRecursive])
  simpa [ArrowField.typ] using h

/-- C6 counterexample: the schema `ROW(a: ARRAY(ROW("": int)))` contains a
nested struct level with an empty field name (inside the array), yet
construction succeeds — `validateSchemaRecursive` does not recurse through
array (or map) types, so the claimed "error iff some struct level is bad"
fails in the only-if direction. -/
theorem schema_validation_counterexample :
    mkWriter ["a"] [.array (.row [""] [.scalar 0])] =
      .ok (initState ["a"] [.array (.row [""] [.scalar 0])]) ∧
    anyBadStructLevel (.row ["a"] [.array (.row [""] [.scalar 0])]) = true := by
  constructor
  · have hval : validateSchemaRecursive
        (.row ["a"] [.array (.row [""] [.scalar 0])]) = true := by
      simp [validateSchemaRecursive, validateRowChildren, validateNames]
    rw [mkWriter, if_pos hval]
  · simp [anyBadStructLevel, anyBadList, badLevel]

/-- C6 amended: construction raises the fatal configuration error if and only
if a struct level reachable from the root through struct children only (the
top level, or a struct directly nested in structs) has an empty or duplicate
field name; struct levels nested inside array or map types are not inspected.
The check belongs to construction alone: `write` never raises it. -/
theorem schema_validation_at_construction (ns : List String) (cs : List VType) :
    (mkWriter ns cs = .error .invalidSchema ↔
      chainBadStructLevel (.row ns cs) = true) ∧
    (mkWriter ns cs = .ok (initState ns cs) ↔
      chainBadStructLevel (.row ns cs) = false) ∧
    (∀ (p : Nat → Nat → Bool) (s : WriterState) (v : Vec) (e : Err),
      Writer.write p s v = .error e → e ≠ .invalidSchema) := by
  refine ⟨?_, ?_, ?_⟩
  · rw [mkWriter, val_chain]
    cases h : chainBadStructLevel (.row ns cs) <;> simp
  · rw [mkWriter, val_chain]
    cases h : chainBadStructLevel (.row ns cs) <;> simp
  · intro p s v e h
    rcases write_error_cases h with ⟨h1, -⟩ | ⟨h1, -⟩ | h1 | h1 | h1 <;>
      simp [h1]

/-- Witness for the amended C6 theorem: a duplicate name at the top level is
rejected at construction, and a clean nested schema is accepted. -/
theorem schema_validation_witness :
    mkWriter ["a", "a"] [.scalar 0, .scalar 1] = .error .invalidSchema ∧
    mkWriter ["a", "b"] [.scalar 0, .row ["c"] [.scalar 1]] =
      .ok (initState ["a", "b"] [.scalar 0, .row ["c"] [.scalar 1]]) := by
  constructor
  · apply (schema_validation_at_construction ["a", "a"]
      [.scalar 0, .scalar 1]).1.mpr
    simp [chainBadStructLevel, chainBadList, badLevel]
  · apply (schema_validation_at_construction ["a", "b"]
      [.scalar 0, .row ["c"] [.scalar 1]]).2.1.mpr
    simp [chainBadStructLevel, chainBadList, badLevel]

/-- C1 (with `Type::equivalent` modelled from the spec as exact type equality,
names included): `write` raises the fatal schema-mismatch usage error — and
nothing is converted or staged, since the call returns the error immediately —
exactly when the batch's logical type is not exactly equal to the writer's
schema; when it is exactly equal, no schema-mismatch error is raised. -/
theorem write_schema_check (p : Nat → Nat → Bool) (s : WriterState) (v : Vec) :
    (VType.equivalent v.typ s.schema = false →
      Writer.write p s v = .error .schemaMismatch) ∧
    (VType.equivalent v.typ s.schema = true →
      Writer.write p s v ≠ .error .schemaMismatch) := by
  constructor
  · intro h
    rw [Writer.write, if_pos h]
  · intro h hcontra
    rcases write_error_cases hcontra with ⟨-, h2⟩ | ⟨h1, -⟩ | h1 | h1 | h1
    · rw [h] at h2; cases h2
    · cases h1
    · cases h1
    · cases h1
    · cases h1

/-- Witness for C1: a batch whose single column has the right type but the
field name `"a"` instead of the schema's `"b"` is rejected with the
schema-mismatch error; the identically-typed-and-named batch is not. -/
theorem write_schema_check_witness :
    VType.equivalent (.row ["a"] [.scalar 0]) (.row ["b"] [.scalar 0])
        = false ∧
    Writer.write (fun _ _ => false)
        (initState ["b"] [.scalar 0])
        { id := 1, typ := .row ["a"] [.scalar 0], isRowVec := true,
          nonFlatChildren := false, arrowFields := [⟨"x", .prim 0⟩],
          numRows := 1, estBytes := 0 } = .error .schemaMismatch ∧
    VType.equivalent (.row ["b"] [.scalar 0]) (.row ["b"] [.scalar 0])
        = true ∧
    Writer.write (fun _ _ => false)
        (initState ["b"] [.scalar 0])
        { id := 1, typ := .row ["b"] [.scalar 0], isRowVec := true,
          nonFlatChildren := false, arrowFields := [⟨"x", .prim 0⟩],
          numRows := 1, estBytes := 0 } ≠ .error .schemaMismatch := by
  have he1 : VType.equivalent (.row ["a"] [.scalar 0]) (.row ["b"] [.scalar 0])
      = false := by
    simp [VType.equivalent, VType.equivalentList]
  have he2 : VType.equivalent (.row ["b"] [.scalar 0]) (.row ["b"] [.scalar 0])
      = true := by
    simp [VType.equivalent, VType.equivalentList]
  refine ⟨he1, ?_, he2, ?_⟩
  · exact (write_schema_check _ _ _).1 he1
  · exact (write_schema_check _ _ _).2 he2

/-- C9: `write` requires a row vector.  For every input vector that is not a
`RowVector`, the call fails before anything is converted or staged: if the
type check passes, the failure is exactly the flatten-check error
(`VELOX_CHECK_NOT_NULL` in `needFlatten`); in every case some fatal error is
raised. -/
theorem write_requires_row_vector (p : Nat → Nat → Bool) (s : WriterState)
    (v : Vec) (hrv : v.isRowVec = false) :
    (∃ e, Writer.write p s v = .error e) ∧
    (VType.equivalent v.typ s.schema = true →
      Writer.write p s v = .error .notRowVector) ∧
    needFlatten v = .error .notRowVector := by
  refine ⟨?_, ?_, ?_⟩
  · by_cases he : VType.equivalent v.typ s.schema = false
    · exact ⟨.schemaMismatch, by rw [Writer.write, if_pos he]⟩
    · exact ⟨.notRowVector, by rw [Writer.write, if_neg he, if_pos hrv]⟩
  · intro he
    rw [Writer.write, if_neg (by simp [he]), if_pos hrv]
  · rw [needFlatten, hrv]
    simp

/-- Witness for C9: a constant-encoded (non-`RowVector`) input of the correct
row type is rejected by the flatten check. -/
theorem write_requires_row_vector_witness :
    Writer.write (fun _ _ => false) (initState ["b"] [.scalar 0])
      { id := 1, typ := .row ["b"] [.scalar 0], isRowVec := false,
        nonFlatChildren := false, arrowFields := [⟨"x", .prim 0⟩],
        numRows := 1, estBytes := 0 } = .error .notRowVector := by
  refine (write_requires_row_vector _ _ _ rfl).2.1 ?_
  simp [initState, VType.equivalent, VType.equivalentList]

/-- C5: after `abort` (which drops the destination handle without flushing and
drops the whole Arrow context), every subsequent `write`, `flush` or `close`
on the writer is rejected with an error — the modelled dereference of the
dropped context — and, returning an error, produces no output; the destination
receives no bytes (`abort` itself delivers nothing either: the destination
chunk list is unchanged). -/
theorem abort_terminal (p : Nat → Nat → Bool) (s : WriterState) (v : Vec) :
    (∃ e, Writer.write p (Writer.abort s) v = .error e) ∧
    Writer.flush (Writer.abort s) = .error .nullDeref ∧
    Writer.close (Writer.abort s) = .error .nullDeref ∧
    (Writer.abort s).stream.dest = s.stream.dest := by
  have hctx : (Writer.abort s).ctx = none := rfl
  have hfl : Writer.flush (Writer.abort s) = .error .nullDeref := by
    rw [Writer.flush, hctx]
  refine ⟨?_, hfl, ?_, rfl⟩
  · by_cases he : VType.equivalent v.typ (Writer.abort s).schema = false
    · exact ⟨.schemaMismatch, by rw [Writer.write, if_pos he]⟩
    · by_cases hrv : v.isRowVec = false
      · exact ⟨.notRowVector, by rw [Writer.write, if_neg he, if_pos hrv]⟩
      · cases hsc : (Writer.abort s).schema with
        | row ns cs =>
          cases huf : updateFields v.arrowFields ns cs with
          | none =>
            refine ⟨.conversionFailure, ?_⟩
            rw [Writer.write, if_neg he, if_neg hrv, hsc]
            simp only
            rw [huf]
          | some nf =>
            refine ⟨.nullDeref, ?_⟩
            rw [Writer.write, if_neg he, if_neg hrv, hsc]
            simp only
            rw [huf]
            simp only
            rw [hctx]
        | scalar k =>
          refine ⟨.conversionFailure, ?_⟩
          rw [Writer.write, if_neg he, if_neg hrv, hsc]
        | array a =>
          refine ⟨.conversionFailure, ?_⟩
          rw [Writer.write, if_neg he, if_neg hrv, hsc]
        | map a b =>
          refine ⟨.conversionFailure, ?_⟩
          rw [Writer.write, if_neg he, if_neg hrv, hsc]
  · rw [Writer.close, hfl]

/-- C4: the `flush` contract.  With nothing staged, `flush` is a strict no-op
(the state — including the encoder handle, absent or not — is returned
unchanged).  With a positive staged row count, it emits exactly one table
built from all the currently staged fragment sequences, tagged with the
staged row count, opens the encoder if it was not yet open, flushes the
buffered sink to the destination, and clears every fragment sequence and both
counters to zero — never a partial clear. -/
theorem flush_contract (s : WriterState) (c : ArrowCtx)
    (sch : List ArrowField) (hc : s.ctx = some c) :
    (c.stagingRows = 0 → Writer.flush s = .ok s) ∧
    (0 < c.stagingRows → c.schema = some sch →
     c.stagingChunks.length = sch.length → s.stream.sinkAlive = true →
     Writer.flush s = .ok
       { s with
         stream := { s.stream with
                     bytesFlushed := s.stream.bytesFlushed + s.stream.buffer,
                     dest := s.stream.dest ++ [s.stream.buffer],
                     buffer := 0 },
         emitted := s.emitted ++ [⟨c.stagingRows, c.stagingChunks⟩],
         encoderOpens :=
           if c.writer then s.encoderOpens else s.encoderOpens + 1,
         ctx := some { c with
                       writer := true,
                       stagingChunks := c.stagingChunks.map (fun _ => []),
                       stagingRows := 0,
                       stagingBytes := 0 } }) := by
  constructor
  · intro h0
    exact flush_zero s c hc h0
  · intro hr hsch hlen halive
    rw [Writer.flush, hc]
    simp only
    rw [if_pos hr, hsch]
    simp only
    rw [show takeColumns sch.length c.stagingChunks = some c.stagingChunks by
      rw [takeColumns_of_le _ _ (le_of_eq hlen.symm), ← hlen,
          List.take_length]]
    simp only
    rw [show streamFlush s.stream = some
        { s.stream with
          bytesFlushed := s.stream.bytesFlushed + s.stream.buffer,
          dest := s.stream.dest ++ [s.stream.buffer],
          buffer := 0 } by rw [streamFlush, if_pos halive]]

/-- Witness for C4 at concrete states: a no-op flush on an empty staging
buffer, and a materializing flush of two staged fragments. -/
theorem flush_contract_witness :
    Writer.flush (initState ["a"] [.scalar 0]) =
      .ok (initState ["a"] [.scalar 0]) ∧
    Writer.flush
      { schema := .row ["a"] [.scalar 0],
        stream := freshStream,
        ctx := some { writer := false, schema := some [⟨"a", .prim 0⟩],
                      stagingRows := 5, stagingBytes := 10,
                      stagingChunks := [[1, 2]] },
        emitted := [], encoderOpens := 0, footers := 0 } =
      .ok { schema := .row ["a"] [.scalar 0],
            stream := { freshStream with dest := [0] },
            ctx := some { writer := true, schema := some [⟨"a", .prim 0⟩],
                          stagingRows := 0, stagingBytes := 0,
                          stagingChunks := [[]] },
            emitted := [⟨5, [[1, 2]]⟩], encoderOpens := 1, footers := 0 } := by
  constructor
  · exact (flush_contract (initState ["a"] [.scalar 0])
      { writer := false, schema := none, stagingRows := 0,
        stagingBytes := 0, stagingChunks := [] } [] rfl).1 rfl
  · have h := (flush_contract
      { schema := .row ["a"] [.scalar 0],
        stream := freshStream,
        ctx := some { writer := false, schema := some [⟨"a", .prim 0⟩],
                      stagingRows := 5, stagingBytes := 10,
                      stagingChunks := [[1, 2]] },
        emitted := [], encoderOpens := 0, footers := 0 }
      { writer := false, schema := some [⟨"a", .prim 0⟩],
        stagingRows := 5, stagingBytes := 10, stagingChunks := [[1, 2]] }
      [⟨"a", .prim 0⟩] rfl).2 (by decide) rfl rfl rfl
    simpa [freshStream] using h

/-- C8: closing a writer to which no rows were ever staged (no encoder handle
exists, nothing staged, nothing yet buffered) creates no encoder and emits no
table and no footer: it only flushes the empty sink buffer (delivering zero
bytes) and closes the sink. -/
theorem close_without_rows (s : WriterState) (c : ArrowCtx)
    (hc : s.ctx = some c) (h0 : c.stagingRows = 0) (hw : c.writer = false)
    (hb : s.stream.buffer = 0) (ha : s.stream.sinkAlive = true) :
    ∃ s', Writer.close s = .ok s' ∧
      s'.encoderOpens = s.encoderOpens ∧
      s'.footers = s.footers ∧
      s'.emitted = s.emitted ∧
      s'.stream.dest.sum = s.stream.dest.sum ∧
      s'.stream.sinkClosed = true ∧
      s'.ctx = some { c with stagingChunks := [] } := by
  have hfl := flush_zero s c hc h0
  rw [Writer.close, hfl]
  simp only
  rw [hc]
  simp only
  rw [if_neg (by simp [hw])]
  rw [show streamFlush s.stream = some
      { s.stream with
        bytesFlushed := s.stream.bytesFlushed + s.stream.buffer,
        dest := s.stream.dest ++ [s.stream.buffer],
        buffer := 0 } by rw [streamFlush, if_pos ha]]
  simp only
  rw [hc]
  exact ⟨_, rfl, rfl, rfl, rfl, by simp [hb], rfl, rfl⟩

/-- Witness for C8: closing a freshly constructed writer delivers zero bytes,
opens no encoder, and writes no footer. -/
theorem close_without_rows_witness :
    ∃ s', Writer.close (initState ["a"] [.scalar 0]) = .ok s' ∧
      s'.encoderOpens = (initState ["a"] [.scalar 0]).encoderOpens ∧
      s'.footers = (initState ["a"] [.scalar 0]).footers ∧
      s'.emitted = (initState ["a"] [.scalar 0]).emitted ∧
      s'.stream.dest.sum = (initState ["a"] [.scalar 0]).stream.dest.sum ∧
      s'.stream.sinkClosed = true ∧
      s'.ctx = some { writer := false, schema := none, stagingRows := 0,
                      stagingBytes := 0, stagingChunks := [] } := by
  exact close_without_rows (initState ["a"] [.scalar 0])
    { writer := false, schema := none, stagingRows := 0,
      stagingBytes := 0, stagingChunks := [] } rfl rfl rfl rfl rfl

/-- `stageInit` never changes the staged counters. -/
theorem stageInit_rows (c : ArrowCtx) (nf : List ArrowField) :
    (stageInit c nf).stagingRows = c.stagingRows := by
  rw [stageInit]; split <;> rfl

/-- `stageInit` never changes the staged byte estimate. -/
theorem stageInit_bytes (c : ArrowCtx) (nf : List ArrowField) :
    (stageInit c nf).stagingBytes = c.stagingBytes := by
  rw [stageInit]; split <;> rfl

/-- Fragment ids staged after `stageInit` were staged before (the only change
it can make is installing fresh empty sequences). -/
theorem stageInit_mem (c : ArrowCtx) (nf : List ArrowField) (x : Nat) :
    memChunksB x (stageInit c nf).stagingChunks = true →
    memChunksB x c.stagingChunks = true := by
  rw [stageInit]
  split
  · intro h
    simp only at h
    rw [memChunksB_replicate] at h
    cases h
  · exact id

/-- One `flush` step never increases the occurrence count of any batch id. -/
theorem flush_occ_le {s s' : WriterState} (h : Writer.flush s = .ok s')
    (id : Nat) : occCount id s' ≤ occCount id s := by
  obtain ⟨c, hc, hcase⟩ := flush_ok_cases h
  rcases hcase with ⟨-, rfl⟩ | ⟨hr, sch, cols, st, hsch, htc, hsf, rfl⟩
  · exact le_refl _
  · simp only [occCount, groupCount, idInStagingB, hc,
      List.countP_append, List.countP_cons, List.countP_nil,
      memChunksB_clear]
    by_cases hg : idInGroupB id ⟨c.stagingRows, cols⟩ = true
    · have hstag : memChunksB id c.stagingChunks = true :=
        takeColumns_mem htc id (by simpa [idInGroupB] using hg)
      rw [hstag, hg]
      simp
    · rw [Bool.not_eq_true] at hg
      rw [hg]
      simp

/-- One `write` step: the occurrence count of every other batch id does not
increase, and the written batch's id — if fresh — occurs at most once
afterwards (it is staged, not emitted, by this call). -/
theorem write_occ {p : Nat → Nat → Bool} {s s' : WriterState} {v : Vec}
    (h : Writer.write p s v = .ok s') :
    (∀ x, x ≠ v.id → occCount x s' ≤ occCount x s) ∧
    (occCount v.id s = 0 → occCount v.id s' ≤ 1 ∧ groupCount v.id s' = 0) := by
  obtain ⟨-, -, ns, cs, nf, c0, s2, c2, ch, hsc, huf, hc0, hbr, hc2, hap, rfl⟩ :=
    write_ok_cases h
  have hs1occ : ∀ x, occCount x { s with ctx := some (stageInit c0 nf) } ≤
      occCount x s := by
    intro x
    rw [occCount, occCount, groupCount, groupCount, idInStagingB, idInStagingB,
        hc0]
    simp only
    by_cases hm : memChunksB x (stageInit c0 nf).stagingChunks = true
    · rw [if_pos hm, if_pos (stageInit_mem c0 nf x hm)]
    · rw [if_neg hm]
      exact Nat.add_le_add_left (Nat.zero_le _) _
  have hs2occ : ∀ x, occCount x s2 ≤ occCount x s := by
    intro x
    rcases hbr with ⟨-, hfl⟩ | ⟨-, rfl⟩
    · exact le_trans (flush_occ_le hfl x) (hs1occ x)
    · exact hs1occ x
  have hmem : ∀ x, memChunksB x ch =
      (memChunksB x c2.stagingChunks || (decide (x = v.id) &&
        decide (0 < nf.length))) := appendToFirst_mem hap
  constructor
  · intro x hx
    rw [occCount, groupCount, idInStagingB]
    simp only [hmem x]
    rw [show decide (x = v.id) = false by simp [hx]]
    simp only [Bool.false_and, Bool.or_false]
    have := hs2occ x
    rw [occCount, groupCount, idInStagingB, hc2] at this
    exact this
  · intro h0
    have h2 := hs2occ v.id
    rw [h0, Nat.le_zero, occCount, groupCount, idInStagingB, hc2] at h2
    have hcount : List.countP (fun g => idInGroupB v.id g) s2.emitted = 0 := by
      by_cases hb : memChunksB v.id c2.stagingChunks = true
      · rw [if_pos hb] at h2; omega
      · rw [if_neg hb] at h2; omega
    have hstag2 : memChunksB v.id c2.stagingChunks = false := by
      by_cases hb : memChunksB v.id c2.stagingChunks = true
      · rw [if_pos hb] at h2; omega
      · simpa using hb
    constructor
    · rw [occCount, groupCount, idInStagingB]
      simp only [hmem v.id, hstag2, Bool.false_or]
      rw [hcount]
      split <;> omega
    · rw [groupCount]
      simp only
      exact hcount

/-- One `write` step preserves the row bound: the flush decision is taken on
the pre-staging row count, so staging holds at most one batch beyond the
threshold, and any row group emitted here carries the pre-staging count. -/
theorem write_rows {p : Nat → Nat → Bool} {s s' : WriterState} {v : Vec}
    {L M : Nat} (hp : ∀ r b, L ≤ r → p r b = true) (hL : 1 ≤ L)
    (hM : v.numRows ≤ M) (h : Writer.write p s v = .ok s')
    (hinv : RowBound L M s) : RowBound L M s' := by
  obtain ⟨-, -, ns, cs, nf, c0, s2, c2, ch, hsc, huf, hc0, hbr, hc2, hap, rfl⟩ :=
    write_ok_cases h
  have hs0 : stagingRowsOf s = c0.stagingRows := by
    rw [stagingRowsOf, hc0]
  rcases hinv with ⟨hstag, hgroups⟩
  rcases hbr with ⟨hpt, hfl⟩ | ⟨hpf, rfl⟩
  · -- the policy fired: flush before staging
    obtain ⟨c1, hc1, hcase⟩ := flush_ok_cases hfl
    simp only [Option.some.injEq] at hc1
    rcases hcase with ⟨hr0, rfl⟩ | ⟨hrpos, sch, cols, st, hsch, htc, hsf, rfl⟩
    · -- nothing was staged: flush was a no-op
      simp only [Option.some.injEq] at hc2
      have hr0' : c2.stagingRows = 0 := by
        rw [← hc2, hc1]
        exact hr0
      refine ⟨?_, ?_⟩
      · simp only [stagingRowsOf, hr0']
        omega
      · intro g hg
        exact hgroups g hg
    · -- one row group was emitted with the pre-staging row count
      simp only [Option.some.injEq] at hc2
      have hrows1 : c1.stagingRows = c0.stagingRows := by
        rw [← hc1]
        exact stageInit_rows c0 nf
      have hr0' : c2.stagingRows = 0 := by
        rw [← hc2]
      refine ⟨?_, ?_⟩
      · simp only [stagingRowsOf, hr0']
        omega
      · intro g hg
        simp only [List.mem_append, List.mem_singleton] at hg
        rcases hg with hg | rfl
        · exact hgroups g hg
        · refine ⟨by simpa using hrpos, ?_⟩
          simp only
          rw [hrows1]
          omega
  · -- the policy did not fire: the pre-staging count is below the threshold
    have hlt : c0.stagingRows < L := by
      by_contra hge
      have hfire := hp (stageInit c0 nf).stagingRows
        (stageInit c0 nf).stagingBytes (by rw [stageInit_rows]; omega)
      rw [hfire] at hpf
      cases hpf
    simp only [Option.some.injEq] at hc2
    have hr2 : c2.stagingRows = c0.stagingRows := by
      rw [← hc2, stageInit_rows]
    refine ⟨?_, ?_⟩
    · simp only [stagingRowsOf, hr2]
      omega
    · intro g hg
      exact hgroups g hg

/-- One `write` step: the flush policy is consulted on the staged counters as
they are before the incoming batch is staged.  If it does not fire, no row
group is emitted by this call; if it fires with rows staged, exactly one row
group is emitted and it carries the pre-staging row count — never any rows of
the incoming batch. -/
theorem write_emitted {p : Nat → Nat → Bool} {s s' : WriterState} {v : Vec}
    {c : ArrowCtx} (hc : s.ctx = some c)
    (h : Writer.write p s v = .ok s') :
    (p c.stagingRows c.stagingBytes = false → s'.emitted = s.emitted) ∧
    (p c.stagingRows c.stagingBytes = true → 0 < c.stagingRows →
      ∃ cols, s'.emitted = s.emitted ++ [⟨c.stagingRows, cols⟩]) := by
  obtain ⟨-, -, ns, cs, nf, c0, s2, c2, ch, hsc, huf, hc0, hbr, hc2, hap, rfl⟩ :=
    write_ok_cases h
  have hcc : c0 = c := by
    rw [hc0] at hc
    simpa using hc
  subst hcc
  have hrw : p (stageInit c0 nf).stagingRows (stageInit c0 nf).stagingBytes =
      p c0.stagingRows c0.stagingBytes := by
    rw [stageInit_rows, stageInit_bytes]
  constructor
  · intro hpf
    rcases hbr with ⟨hpt, -⟩ | ⟨-, rfl⟩
    · rw [hrw, hpf] at hpt
      cases hpt
    · rfl
  · intro hpt hpos
    rcases hbr with ⟨-, hfl⟩ | ⟨hpf, -⟩
    · obtain ⟨c1, hc1, hcase⟩ := flush_ok_cases hfl
      simp only [Option.some.injEq] at hc1
      rcases hcase with ⟨hr0, rfl⟩ | ⟨hrpos, sch, cols, st, hsch, htc, hsf, rfl⟩
      · rw [← hc1, stageInit_rows] at hr0
        omega
      · refine ⟨cols, ?_⟩
        simp only
        rw [← hc1, stageInit_rows]
    · rw [hrw, hpt] at hpf
      cases hpf

/-- Trace invariant for sequences of `write` calls with a policy respecting
row threshold `L` and batches of at most `M` rows and pairwise-distinct fresh
ids: the occurrence invariant and the row bound are maintained. -/
theorem runWrites_inv {p : Nat → Nat → Bool} {L M : Nat}
    (hp : ∀ r b, L ≤ r → p r b = true) (hL : 1 ≤ L) :
    ∀ (vs : List Vec) (s s' : WriterState),
    runWrites p s vs = .ok s' → (∀ v ∈ vs, v.numRows ≤ M) →
    (∀ v ∈ vs, occCount v.id s = 0) → (vs.map Vec.id).Nodup →
    OccInv s → RowBound L M s →
    OccInv s' ∧ RowBound L M s' := by
  intro vs
  induction vs with
  | nil =>
    intro s s' hrun _ _ _ hocc hrow
    rw [runWrites] at hrun
    simp only [Except.ok.injEq] at hrun
    rw [← hrun]
    exact ⟨hocc, hrow⟩
  | cons v vs ih =>
    intro s s' hrun hM hfresh hnd hocc hrow
    rw [runWrites] at hrun
    cases hw : Writer.write p s v with
    | error e => rw [hw] at hrun; cases hrun
    | ok s1 =>
      rw [hw] at hrun
      simp only at hrun
      obtain ⟨hother, hself⟩ := write_occ hw
      have hv0 : occCount v.id s = 0 := hfresh v (by simp)
      have hocc1 : OccInv s1 := by
        intro x
        by_cases hx : x = v.id
        · rw [hx]
          exact (hself hv0).1
        · exact le_trans (hother x hx) (hocc x)
      have hrow1 : RowBound L M s1 :=
        write_rows hp hL (hM v (by simp)) hw hrow
      have hfresh1 : ∀ w ∈ vs, occCount w.id s1 = 0 := by
        intro w hwmem
        have hne : w.id ≠ v.id := by
          intro heq
          rw [List.map_cons, List.nodup_cons] at hnd
          exact hnd.1 (heq ▸ List.mem_map_of_mem Vec.id hwmem)
        have h0 : occCount w.id s = 0 := hfresh w (by simp [hwmem])
        have := hother w.id hne
        omega
      have hnd1 : (vs.map Vec.id).Nodup := by
        rw [List.map_cons, List.nodup_cons] at hnd
        exact hnd.2
      exact ih s1 s' hrun (fun w hwm => hM w (by simp [hwm])) hfresh1 hnd1
        hocc1 hrow1

/-- C3: for any sequence of `write` calls on a freshly constructed writer,
with a flush policy that fires whenever `L ≤ stagedRows` (`L ≥ 1`), batches of
at most `M` rows, and distinct batch ids: (i) the policy is consulted on the
staged counters as they are *before* the incoming batch is staged — if it says
no, the call emits nothing, and if it says yes with rows staged, the call
first emits exactly one row group carrying the pre-staging row count; (ii) no
batch's fragments ever appear in more than one row group (a batch is never
split); (iii) every emitted row group is nonempty and holds at most
`L - 1 + M` rows — the threshold exceeded by at most one batch — and so does
staging. -/
theorem write_flush_policy (p : Nat → Nat → Bool) (L M : Nat)
    (ns : List String) (cs : List VType) (vs : List Vec) (s' : WriterState)
    (hp : ∀ r b, L ≤ r → p r b = true) (hL : 1 ≤ L)
    (hM : ∀ v ∈ vs, v.numRows ≤ M) (hnd : (vs.map Vec.id).Nodup)
    (hrun : runWrites p (initState ns cs) vs = .ok s') :
    (∀ g ∈ s'.emitted, 0 < g.rows ∧ g.rows ≤ L - 1 + M) ∧
    stagingRowsOf s' ≤ L - 1 + M ∧
    (∀ id, groupCount id s' ≤ 1) ∧
    (∀ (s₀ : WriterState) (c : ArrowCtx) (v : Vec) (s₁ : WriterState),
      s₀.ctx = some c → Writer.write p s₀ v = .ok s₁ →
      (p c.stagingRows c.stagingBytes = false → s₁.emitted = s₀.emitted) ∧
      (p c.stagingRows c.stagingBytes = true → 0 < c.stagingRows →
        ∃ cols, s₁.emitted = s₀.emitted ++ [⟨c.stagingRows, cols⟩])) := by
  have hocc0 : ∀ id, occCount id (initState ns cs) = 0 := by
    intro id
    rw [occCount, groupCount, idInStagingB]
    simp [initState, memChunksB]
  have hrow0 : RowBound L M (initState ns cs) := by
    constructor
    · rw [stagingRowsOf]
      simp [initState]
    · intro g hg
      simp [initState] at hg
  obtain ⟨hocc, hrow⟩ := runWrites_inv hp hL vs (initState ns cs) s' hrun hM
    (fun v _ => hocc0 v.id) hnd (fun id => by rw [hocc0 id]; omega) hrow0
  refine ⟨hrow.2, hrow.1, ?_, ?_⟩
  · intro id
    have := hocc id
    rw [occCount] at this
    omega
  · intro s₀ c v s₁ hc hw
    exact write_emitted hc hw

/-- Witness for C3: threshold 1, two batches of 2 and 1 rows.  The second
write finds 2 staged rows, flushes them as one (whole) row group of 2 rows —
exceeding the threshold by one batch — and only then stages batch 2; no batch
id appears in more than one row group. -/
theorem write_flush_policy_witness :
    ∃ s', runWrites (fun r _ => decide (1 ≤ r)) (initState ["a"] [.scalar 0])
      [{ id := 1, typ := .row ["a"] [.scalar 0], isRowVec := true,
         nonFlatChildren := false, arrowFields := [⟨"x", .prim 0⟩],
         numRows := 2, estBytes := 0 },
       { id := 2, typ := .row ["a"] [.scalar 0], isRowVec := true,
         nonFlatChildren := false, arrowFields := [⟨"x", .prim 0⟩],
         numRows := 1, estBytes := 0 }] = .ok s' ∧
      (∀ g ∈ s'.emitted, 0 < g.rows ∧ g.rows ≤ 1 - 1 + 2) ∧
      stagingRowsOf s' ≤ 1 - 1 + 2 ∧
      (∀ id, groupCount id s' ≤ 1) := by
  have hrun : runWrites (fun r _ => decide (1 ≤ r))
      (initState ["a"] [.scalar 0])
      [{ id := 1, typ := .row ["a"] [.scalar 0], isRowVec := true,
         nonFlatChildren := false, arrowFields := [⟨"x", .prim 0⟩],
         numRows := 2, estBytes := 0 },
       { id := 2, typ := .row ["a"] [.scalar 0], isRowVec := true,
         nonFlatChildren := false, arrowFields := [⟨"x", .prim 0⟩],
         numRows := 1, estBytes := 0 }] =
      .ok { schema := .row ["a"] [.scalar 0],
            stream := { sinkAlive := true, sinkClosed := false, dest := [0],
                        buffer := 0, bytesFlushed := 0 },
            ctx := some { writer := true, schema := some [⟨"a", .prim 0⟩],
                          stagingRows := 1, stagingBytes := 0,
                          stagingChunks := [[2]] },
            emitted := [⟨2, [[1]]⟩], encoderOpens := 1, footers := 0 } := by
    simp [runWrites, Writer.write, Writer.flush, initState, stageInit,
          VType.equivalent, VType.equivalentList, updateFields,
          updateFieldNameRecursive, appendToFirst, takeColumns, streamFlush,
          freshStream, ArrowField.typ]
  have hmain := write_flush_policy (fun r _ => decide (1 ≤ r)) 1 2
    ["a"] [.scalar 0] _ _
    (fun r b hr => by simp [hr]) (le_refl 1)
    (by intro v hv
        rcases List.mem_cons.mp hv with rfl | hv'
        · decide
        · rcases List.mem_cons.mp hv' with rfl | hv''
          · decide
          · cases hv'')
    (by decide)
    hrun
  exact ⟨_, hrun, hmain.1, hmain.2.1, hmain.2.2.1⟩

/-- A `flush` step preserves the staging-shape invariant: when it emits, it
replaces every fragment sequence by an empty one, keeping their count and the
canonical schema. -/
theorem flush_shape {s s' : WriterState} (h : Writer.flush s = .ok s')
    (hs : ChunksShape s) : ChunksShape s' := by
  obtain ⟨c, hc, hcase⟩ := flush_ok_cases h
  rcases hcase with ⟨-, rfl⟩ | ⟨hr, sch, cols, st, hsch, htc, hsf, rfl⟩
  · exact hs
  · obtain ⟨c', hc', hmatch, k, hk⟩ := hs
    rw [hc] at hc'
    simp only [Option.some.injEq] at hc'
    subst hc'
    refine ⟨_, rfl, ?_, 0, ?_⟩
    · simp only
      rw [hsch] at hmatch ⊢
      simp only at hmatch ⊢
      exact ⟨hmatch.1, by simp [hmatch.2]⟩
    · intro l hl
      simp only [List.mem_map] at hl
      obtain ⟨-, -, rfl⟩ := hl
      rfl

/-- After `stageInit` the canonical schema is always set. -/
theorem stageInit_schema_some (c : ArrowCtx) (nf : List ArrowField) :
    ∃ sch, (stageInit c nf).schema = some sch := by
  rw [stageInit]
  split
  · exact ⟨nf, rfl⟩
  · rename_i hnone
    cases hcs : c.schema with
    | none =>
      exfalso
      apply hnone
      rw [hcs]
      rfl
    | some sch => exact ⟨sch, rfl⟩

/-- `flush` never changes the canonical schema stored in the context. -/
theorem flush_ctx_schema {s s' : WriterState} (h : Writer.flush s = .ok s')
    {c c' : ArrowCtx} (hc : s.ctx = some c) (hc' : s'.ctx = some c') :
    c'.schema = c.schema := by
  obtain ⟨cx, hcx, hcase⟩ := flush_ok_cases h
  rw [hc] at hcx
  simp only [Option.some.injEq] at hcx
  subst hcx
  rcases hcase with ⟨-, rfl⟩ | ⟨hr, sch, cols, st, hsch, htc, hsf, rfl⟩
  · rw [hc] at hc'
    simp only [Option.some.injEq] at hc'
    rw [← hc']
  · simp only [Option.some.injEq] at hc'
    rw [← hc']

/-- `flush` never changes the logical schema field of the writer. -/
theorem flush_state_schema {s s' : WriterState}
    (h : Writer.flush s = .ok s') : s'.schema = s.schema := by
  obtain ⟨c, hc, hcase⟩ := flush_ok_cases h
  rcases hcase with ⟨-, rfl⟩ | ⟨_, _, _, _, _, _, _, rfl⟩ <;> rfl

/-- A `write` step preserves the staging-shape invariant, and afterwards every
fragment sequence ends with exactly one new fragment of the written batch;
there is one sequence per top-level field of the logical schema. -/
theorem write_shape {p : Nat → Nat → Bool} {s s' : WriterState} {v : Vec}
    (h : Writer.write p s v = .ok s') (hs : ChunksShape s) :
    ChunksShape s' ∧
    ∃ c', s'.ctx = some c' ∧
      (∀ l ∈ c'.stagingChunks, l.getLast? = some v.id) ∧
      c'.stagingChunks.length = rowArity s.schema := by
  obtain ⟨-, -, ns, cs, nf, c0, s2, c2, ch, hsc, huf, hc0, hbr, hc2, hap, rfl⟩ :=
    write_ok_cases h
  have hnf : nf.length = ns.length := updateFields_len huf
  have harity : rowArity s.schema = ns.length := by
    rw [hsc, rowArity]
  obtain ⟨cc, hcc, hmatch, k, hk⟩ := hs
  rw [hc0] at hcc
  simp only [Option.some.injEq] at hcc
  subst hcc
  -- shape of the intermediate state after stageInit
  have hshape1 : ChunksShape { s with ctx := some (stageInit c0 nf) } := by
    refine ⟨stageInit c0 nf, rfl, ?_⟩
    rw [stageInit]
    cases hsch0 : c0.schema with
    | none =>
      simp only [Option.isNone_none, eq_self_iff_true, if_true]
      refine ⟨⟨hnf.trans harity.symm, by simp⟩, 0, ?_⟩
      intro l hl
      have hl' : l ∈ List.replicate nf.length ([] : List Nat) := hl
      rw [List.eq_of_mem_replicate hl']
      rfl
    | some sch0 =>
      simp only [Option.isNone_some, Bool.false_eq_true, if_false]
      rw [hsch0] at hmatch ⊢
      exact ⟨hmatch, k, hk⟩
  -- the canonical schema after stageInit, and hence after the flush branch
  obtain ⟨sch1, hsch1⟩ := stageInit_schema_some c0 nf
  have hstep2 : ChunksShape s2 ∧ s2.schema = s.schema ∧
      c2.schema = some sch1 := by
    rcases hbr with ⟨-, hfl⟩ | ⟨-, rfl⟩
    · refine ⟨flush_shape hfl hshape1, (flush_state_schema hfl).trans rfl, ?_⟩
      rw [flush_ctx_schema hfl rfl hc2]
      exact hsch1
    · refine ⟨hshape1, rfl, ?_⟩
      simp only [Option.some.injEq] at hc2
      rw [← hc2]
      exact hsch1
  obtain ⟨⟨c2', hc2', hmatch2, k2, hk2⟩, hs2schema, hc2schema⟩ := hstep2
  rw [hc2] at hc2'
  simp only [Option.some.injEq] at hc2'
  subst hc2'
  have hlen2 : c2.stagingChunks.length = nf.length := by
    rw [hc2schema] at hmatch2
    simp only at hmatch2
    rw [hmatch2.2, hmatch2.1, hs2schema, harity, hnf]
  -- staging appended one fragment to every column
  have hch : ch = c2.stagingChunks.map (fun c => c ++ [v.id]) := by
    have hfull := appendToFirst_full c2.stagingChunks v.id
    rw [hlen2] at hfull
    rw [hfull] at hap
    simpa using hap.symm
  subst hch
  refine ⟨⟨_, rfl, ?_, k2 + 1, ?_⟩, _, rfl, ?_, ?_⟩
  · simp only [hc2schema]
    rw [hc2schema] at hmatch2
    simp only at hmatch2 ⊢
    refine ⟨by rw [hmatch2.1, hs2schema], ?_⟩
    rw [List.length_map, hmatch2.2]
  · intro l hl
    simp only [List.mem_map] at hl
    obtain ⟨l0, hl0, rfl⟩ := hl
    simp [hk2 l0 hl0]
  · intro l hl
    simp only [List.mem_map] at hl
    obtain ⟨l0, -, rfl⟩ := hl
    simp
  · simp only [List.length_map]
    rw [hlen2, hnf, harity]

/-- A `flush` step is all-or-nothing on the staging buffer: either the state
is unchanged, or every fragment sequence is left empty. -/
theorem flush_clear {s s' : WriterState} (h : Writer.flush s = .ok s') :
    s' = s ∨ ∃ c', s'.ctx = some c' ∧ ∀ l ∈ c'.stagingChunks, l = [] := by
  obtain ⟨c, hc, hcase⟩ := flush_ok_cases h
  rcases hcase with ⟨-, rfl⟩ | ⟨hr, sch, cols, st, hsch, htc, hsf, rfl⟩
  · exact Or.inl rfl
  · refine Or.inr ⟨_, rfl, ?_⟩
    intro l hl
    simp only [List.mem_map] at hl
    obtain ⟨-, -, rfl⟩ := hl
    rfl

/-- The staging-shape invariant holds along any sequence of public write/flush
operations. -/
theorem runOps_shape {p : Nat → Nat → Bool} : ∀ (ops : List WOp)
    (s s' : WriterState), runOps p s ops = .ok s' → ChunksShape s →
    ChunksShape s' := by
  intro ops
  induction ops with
  | nil =>
    intro s s' hrun hs
    rw [runOps] at hrun
    simp only [Except.ok.injEq] at hrun
    rw [← hrun]
    exact hs
  | cons op ops ih =>
    intro s s' hrun hs
    rw [runOps] at hrun
    cases hop : wopApply p s op with
    | error e => rw [hop] at hrun; cases hrun
    | ok s1 =>
      rw [hop] at hrun
      simp only at hrun
      refine ih s1 s' hrun ?_
      cases op with
      | write v =>
        rw [wopApply] at hop
        exact (write_shape hop hs).1
      | flush =>
        rw [wopApply] at hop
        exact flush_shape hop hs

/-- C10: staging-buffer invariant.  Along any sequence of public write/flush
operations on a freshly constructed writer: once the canonical reconciled
schema is set (i.e. after the first successful write) the number of
per-column fragment sequences equals its field count, and at every point all
fragment sequences have one common length; a further successful `write`
appends exactly one fragment — the batch's — to the end of every column's
sequence (one sequence per logical field), and a `flush` either leaves the
state unchanged or empties all sequences together. -/
theorem staging_buffer_invariant (p : Nat → Nat → Bool) (ns : List String)
    (cs : List VType) (ops : List WOp) (s' : WriterState)
    (hrun : runOps p (initState ns cs) ops = .ok s') :
    ChunksShape s' ∧
    (∀ c sch, s'.ctx = some c → c.schema = some sch →
      c.stagingChunks.length = sch.length ∧
      ∃ k, ∀ l ∈ c.stagingChunks, l.length = k) ∧
    (∀ v s₂, Writer.write p s' v = .ok s₂ →
      ∃ c₂, s₂.ctx = some c₂ ∧
        (∀ l ∈ c₂.stagingChunks, l.getLast? = some v.id) ∧
        c₂.stagingChunks.length = rowArity s'.schema) ∧
    (∀ s₂, Writer.flush s' = .ok s₂ →
      s₂ = s' ∨ ∃ c₂, s₂.ctx = some c₂ ∧ ∀ l ∈ c₂.stagingChunks, l = []) := by
  have hshape0 : ChunksShape (initState ns cs) := by
    refine ⟨_, rfl, ?_, 0, ?_⟩
    · rfl
    · intro l hl
      simp [initState] at hl
  have hshape := runOps_shape ops _ _ hrun hshape0
  refine ⟨hshape, ?_, ?_, ?_⟩
  · intro c sch hc hsch
    obtain ⟨c', hc', hmatch, k, hk⟩ := hshape
    rw [hc] at hc'
    simp only [Option.some.injEq] at hc'
    subst hc'
    rw [hsch] at hmatch
    simp only at hmatch
    exact ⟨hmatch.2, k, hk⟩
  · intro v s₂ hw
    exact (write_shape hw hshape).2
  · intro s₂ hfl
    exact flush_clear hfl

/-- Witness for C10 at a concrete trace: one write then an explicit flush; the
write leaves one fragment sequence (the schema has one field) ending in the
batch id, and the flush empties it. -/
theorem staging_buffer_invariant_witness :
    ∃ s', runOps (fun _ _ => false) (initState ["a"] [.scalar 0])
        [.write { id := 7, typ := .row ["a"] [.scalar 0], isRowVec := true,
                  nonFlatChildren := false, arrowFields := [⟨"x", .prim 0⟩],
                  numRows := 3, estBytes := 4 }] = .ok s' ∧
      ChunksShape s' ∧
      (∃ c, s'.ctx = some c ∧ c.stagingChunks = [[7]] ∧
        c.schema = some [⟨"a", .prim 0⟩]) ∧
      (∀ s₂, Writer.flush s' = .ok s₂ →
        s₂ = s' ∨ ∃ c₂, s₂.ctx = some c₂ ∧ ∀ l ∈ c₂.stagingChunks, l = []) := by
  have hrun : runOps (fun _ _ => false) (initState ["a"] [.scalar 0])
      [.write { id := 7, typ := .row ["a"] [.scalar 0], isRowVec := true,
                nonFlatChildren := false, arrowFields := [⟨"x", .prim 0⟩],
                numRows := 3, estBytes := 4 }] =
      .ok { schema := .row ["a"] [.scalar 0],
            stream := freshStream,
            ctx := some { writer := false, schema := some [⟨"a", .prim 0⟩],
                          stagingRows := 3, stagingBytes := 4,
                          stagingChunks := [[7]] },
            emitted := [], encoderOpens := 0, footers := 0 } := by
    simp [runOps, wopApply, Writer.write, Writer.flush, initState, stageInit,
          VType.equivalent, VType.equivalentList, updateFields,
          updateFieldNameRecursive, appendToFirst, takeColumns, streamFlush,
          freshStream, ArrowField.typ]
  have hmain := staging_buffer_invariant (fun _ _ => false) ["a"] [.scalar 0]
    _ _ hrun
  exact ⟨_, hrun, hmain.1, ⟨_, rfl, rfl, rfl⟩, hmain.2.2.2⟩
